import Mathlib

/-!
Verification of `geojson/utils.py`: coordinate extraction (`coords`),
structure-preserving coordinate mapping (`map_coords`), and random
geometry generation (`generate_random`).

Python's nested coordinate data (tuples/lists of numbers) is embedded as
the inductive type `PyVal`; numbers are modelled as rationals.  The
tuple-vs-list distinction of Python sequences is kept (the `tup` flag),
because Python's structural equality `==` distinguishes `(1, 2)` from
`[1, 2]`.
-/

/-- Embedding of a Python value appearing inside a `coordinates`
structure: either a number (int/float, modelled as `ℚ`) or a sequence
(`tup = true` for a tuple, `false` for a list) of such values. -/
inductive PyVal where
  | num (q : ℚ)
  | seq (tup : Bool) (elems : List PyVal)
deriving Repr, Inhabited

namespace PyVal

/-- Test mirroring Python's `isinstance(e, (float, int))`. -/
def isNumV : PyVal → Bool
  | .num _ => true
  | .seq _ _ => false

/-- Conversion mirroring Python's `tuple(c)` on a sequence `c`
(identity on numbers, where Python would raise). -/
def toTuple : PyVal → PyVal
  | .num q => .num q
  | .seq _ es => .seq true es

end PyVal

/-- Body of the `for e in coordinates` loop of `coords` in
`geojson/utils.py`.  The first argument is the full `coordinates`
sequence (needed for `yield tuple(coordinates)`); the second is the
remaining elements still to be iterated.  A numeric element yields the
whole `coordinates` as a tuple and breaks; a sequence element recurses
(`for f in coords(e): yield f`, where `e`, being a tuple/list, re-enters
the loop on its own elements). -/
def coordsElems : List PyVal → List PyVal → List PyVal
  | _, [] => []
  | coordinates, .num _ :: _ => [.seq true coordinates]
  | coordinates, .seq _ es :: rest =>
      coordsElems es es ++ coordsElems coordinates rest
termination_by _ l => sizeOf l
decreasing_by
  all_goals simp_wf
  all_goals omega

/-- Traversal of `coords` on an already-resolved coordinate structure.
Iterating a bare number is a Python `TypeError`, modelled as `none`. -/
def coordsRaw : PyVal → Option (List PyVal)
  | .num _ => none
  | .seq _ es => some (coordsElems es es)

/-- Record under the `geometry` key of a Feature: the only field
`coords` reads from it is `coordinates` (`obj['geometry']['coordinates']`);
`none` models an absent key (Python `KeyError`). -/
structure GeomField where
  coordinates? : Option PyVal

/-- Input of `coords`: either a raw tuple/list, or a mapping with
optional `geometry` and `coordinates` keys (plus the remaining keys,
which `coords` only ever touches when it iterates the mapping itself). -/
inductive GeoInput where
  | raw (v : PyVal)
  | record (geometry? : Option GeomField) (coordinates? : Option PyVal)
      (otherKeys : List String)

/-- Embedding of `coords(obj)` from `geojson/utils.py`.  Resolution of
the structure to traverse follows the source: a tuple/list is used
directly; else a present `geometry` key wins (`obj['geometry']['coordinates']`,
`none` if the inner `coordinates` key is missing); else
`obj.get('coordinates', obj)`.  In the final fallback the mapping itself
is iterated: iterating a Python mapping yields its keys, and the
recursive call `coords(key)` on a string raises (`AttributeError`),
modelled as `none`; an empty mapping yields nothing. -/
def coords : GeoInput → Option (List PyVal)
  | .raw v => coordsRaw v
  | .record (some g) _ _ =>
      match g.coordinates? with
      | some c => coordsRaw c
      | none => none
  | .record none (some c) _ => coordsRaw c
  | .record none none ks => if ks.isEmpty then some [] else none

mutual

/-- Specification-side description of the extractor (§4.1 of the spec):
depth-first, left-to-right; a nonempty level whose elements are numeric
is a coordinate tuple and is emitted whole; otherwise each child is
traversed in order and its leaves are forwarded. -/
def specLeafTuples : PyVal → List PyVal
  | .num _ => []
  | .seq _ es =>
      if !es.isEmpty && es.all PyVal.isNumV then [.seq true es]
      else specLeafTuplesList es

/-- List version of `specLeafTuples`: concatenation of the leaf tuples
of each element, in order. -/
def specLeafTuplesList : List PyVal → List PyVal
  | [] => []
  | e :: es => specLeafTuples e ++ specLeafTuplesList es

end

/-- Well-formed nested coordinate structure: either a coordinate tuple
(a nonempty sequence of numbers) or a node all of whose children are
well-formed.  Mixed numeric/sequence levels are excluded, as in §3 of
the spec ("depth must match the table exactly"). -/
inductive WFNest : PyVal → Prop where
  | tuple (t : Bool) (es : List PyVal) (hne : es ≠ [])
      (hnum : ∀ e ∈ es, PyVal.isNumV e = true) : WFNest (.seq t es)
  | node (t : Bool) (es : List PyVal) (h : ∀ e ∈ es, WFNest e) :
      WFNest (.seq t es)

/-- Geometry-shaped record: a mapping with exactly a `type` tag and a
`coordinates` structure, which is both what `map_coords` consumes and
the shape of the record it returns (`{'type': obj['type'],
'coordinates': coordinates}`). -/
structure Geometry where
  type : String
  coordinates : PyVal
deriving Repr, Inhabited

/-- Failure modes of `map_coords`: the explicit
`raise ValueError("Invalid geometry object ...")` of the final branch
(`unsupportedGeometryType`), versus any other host-level failure while
rebuilding coordinates (iterating a non-sequence, a non-numeric leaf
where a number is required), collectively `typeError`. -/
inductive MapErr where
  | unsupportedGeometryType
  | typeError
deriving Repr, DecidableEq

/-- Effect of a Python list comprehension `[g(c) for c in es]`: apply
`g` to each element in order, propagating the first failure. -/
def mapOpt (g : PyVal → Option PyVal) : List PyVal → Option (List PyVal)
  | [] => some []
  | e :: es =>
      match g e, mapOpt g es with
      | some b, some bs => some (b :: bs)
      | _, _ => none

/-- Application of the numeric transform to one coordinate component;
a non-numeric component is a modelling failure (the Lean transform is
`ℚ → ℚ`, so, unlike an arbitrary Python callable, it cannot be applied
to a sequence). -/
def mapNum (f : ℚ → ℚ) : PyVal → Option PyVal
  | .num q => some (.num (f q))
  | .seq _ _ => none

/-- Embedding of `tuple(map(func, c))`: `c` must be a sequence of
numbers; the result is a tuple. -/
def mapTuple (f : ℚ → ℚ) : PyVal → Option PyVal
  | .num _ => none
  | .seq _ es => (mapOpt (mapNum f) es).map (.seq true)

/-- Embedding of a list comprehension level `[g(c) for c in v]`: `v`
must be a sequence; the result is a list. -/
def mapLevel (g : PyVal → Option PyVal) : PyVal → Option PyVal
  | .num _ => none
  | .seq _ es => (mapOpt g es).map (.seq false)

/-- Packaging of a successfully rebuilt coordinate structure into the
result record of `map_coords`, with `none` standing for a host-level
failure inside the rebuilding expression. -/
def buildRes (t : String) : Option PyVal → Except MapErr Geometry
  | some c => .ok ⟨t, c⟩
  | none => .error .typeError

/-- Embedding of `map_coords(func, obj)` from `geojson/utils.py`:
dispatch on `obj['type']` through the same chain of cases as the
source, rebuilding the coordinates at the nesting depth the type
dictates and returning `{'type': obj['type'], 'coordinates': ...}`;
any other type raises `ValueError` (`UnsupportedGeometryType`), with
no partial result. -/
def map_coords (f : ℚ → ℚ) (obj : Geometry) : Except MapErr Geometry :=
  if obj.type = "Point" then
    buildRes obj.type (mapTuple f obj.coordinates)
  else if obj.type = "LineString" ∨ obj.type = "MultiPoint" then
    buildRes obj.type (mapLevel (mapTuple f) obj.coordinates)
  else if obj.type = "MultiLineString" ∨ obj.type = "Polygon" then
    buildRes obj.type (mapLevel (mapLevel (mapTuple f)) obj.coordinates)
  else if obj.type = "MultiPolygon" then
    buildRes obj.type (mapLevel (mapLevel (mapLevel (mapTuple f))) obj.coordinates)
  else .error .unsupportedGeometryType

/-- Geometry types supported by `map_coords`, in source order. -/
def supportedTypes : List String :=
  ["Point", "LineString", "MultiPoint", "MultiLineString", "Polygon",
   "MultiPolygon"]

/-- Nesting depth of the coordinate structure each supported type
dictates (§3 of the spec): `0` levels of sequence nesting above the
coordinate tuple for `Point`, `1` for `LineString`/`MultiPoint`, `2`
for `Polygon`/`MultiLineString`, `3` for `MultiPolygon`. -/
def geomDepth : String → Option ℕ
  | "Point" => some 0
  | "LineString" => some 1
  | "MultiPoint" => some 1
  | "MultiLineString" => some 2
  | "Polygon" => some 2
  | "MultiPolygon" => some 3
  | _ => none

/-- Coordinate structure of the depth `d` dictated by a geometry type,
ignoring the tuple/list kind of each sequence: at depth `0` a sequence
of numbers, at depth `d+1` a sequence of structures of depth `d`. -/
def depthB : ℕ → PyVal → Bool
  | 0, .seq _ es => es.all PyVal.isNumV
  | 0, .num _ => false
  | _ + 1, .num _ => false
  | d + 1, .seq _ es => es.all (depthB d)

/-- Canonical representation of a depth-`d` coordinate structure, i.e.
the exact tuple/list kinds `map_coords` itself produces: the coordinate
tuple is a tuple, every enclosing level a list. -/
def canonDepth : ℕ → PyVal → Bool
  | 0, .seq true es => es.all PyVal.isNumV
  | 0, _ => false
  | _ + 1, .num _ => false
  | _ + 1, .seq true _ => false
  | d + 1, .seq false es => es.all (canonDepth d)

/-- Iterated level mapper: depth `0` is `tuple(map(f, ·))`, depth `d+1`
one list-comprehension level above depth `d`; `map_coords` uses depths
`0`–`3` for its four branches. -/
def mapD (f : ℚ → ℚ) : ℕ → PyVal → Option PyVal
  | 0 => mapTuple f
  | d + 1 => mapLevel (mapD f d)

mutual

/-- Specification-side leaf transform: apply `f` to every numeric leaf,
keeping every sequence and its tuple/list kind unchanged. -/
def mapLeaves (f : ℚ → ℚ) : PyVal → PyVal
  | .num q => .num (f q)
  | .seq t es => .seq t (mapLeavesList f es)

/-- List version of `mapLeaves`. -/
def mapLeavesList (f : ℚ → ℚ) : List PyVal → List PyVal
  | [] => []
  | e :: es => mapLeaves f e :: mapLeavesList f es

end

mutual

/-- Numeric leaves of a nested structure, in depth-first left-to-right
order. -/
def leavesOf : PyVal → List ℚ
  | .num q => [q]
  | .seq _ es => leavesOfList es

/-- List version of `leavesOf`. -/
def leavesOfList : List PyVal → List ℚ
  | [] => []
  | e :: es => leavesOf e ++ leavesOfList es

end

mutual

/-- Shape skeleton of a nested structure: nesting depth and per-level
element counts, with leaf values and tuple/list kinds erased. -/
def shapeOf : PyVal → PyVal
  | .num _ => .num 0
  | .seq _ es => .seq false (shapeOfList es)

/-- List version of `shapeOf`. -/
def shapeOfList : List PyVal → List PyVal
  | [] => []
  | e :: es => shapeOf e :: shapeOfList es

end

/-- Canonical rebuild of a depth-`d` structure: mark the coordinate
tuple (depth `0`) a tuple and every enclosing level a list, exactly as
the nested rebuilding expressions of `map_coords` do. -/
def canonAt : ℕ → PyVal → PyVal
  | 0, .seq _ es => .seq true es
  | 0, v => v
  | _ + 1, .num q => .num q
  | d + 1, .seq _ es => .seq false (es.map (canonAt d))

/-! Random geometry generation (`generate_random`).  The draws of the
randomness source are passed in explicitly: integer draws for
`random.randrange` are modelled by an arbitrary natural number reduced
into the requested range, and the continuous draws of the polygon
algorithm (`random.uniform`, `random.gauss`) are real-valued
parameters.  The trigonometric vertex computation lives in `ℝ`, so the
polygon definitions are noncomputable. -/

/-- Embedding of a Python coordinate pair `(x, y)` of integers. -/
def pairVal (p : ℤ × ℤ) : PyVal :=
  .seq true [.num (p.1 : ℚ), .num (p.2 : ℚ)]

/-- Modelled from the spec: the `Point` constructor of the `geojson`
package (absent from `src/`) produces a geometry-shaped record with
type tag `Point` and the given coordinate tuple. -/
def Point_ctor (p : ℤ × ℤ) : Geometry :=
  ⟨"Point", pairVal p⟩

/-- Modelled from the spec: the `LineString` constructor of the
`geojson` package (absent from `src/`) produces a geometry-shaped
record with type tag `LineString` and the given list of coordinate
tuples. -/
def LineString_ctor (cs : List (ℤ × ℤ)) : Geometry :=
  ⟨"LineString", .seq false (cs.map pairVal)⟩

/-- Modelled from the spec: the `Polygon` constructor of the `geojson`
package (absent from `src/`) produces a geometry-shaped record with
type tag `Polygon` and the given list of rings, each a list of
coordinate tuples. -/
def Polygon_ctor (rings : List (List (ℤ × ℤ))) : Geometry :=
  ⟨"Polygon", .seq false (rings.map (fun r => .seq false (r.map pairVal)))⟩

/-- Modelled from the spec: `random.randrange(lo, hi)` (Python standard
library) returns an integer in `[lo, hi)`; an arbitrary raw draw
`u : ℕ` is reduced into that range.  Only meaningful for `lo < hi`
(otherwise Python raises `ValueError`). -/
def randrange (lo hi : ℤ) (u : ℕ) : ℤ :=
  lo + (u : ℤ) % (hi - lo)

/-- Bounding box `[lonMin, latMin, lonMax, latMax]`, indexed as the
source unpacks it (`boundingBox[0], boundingBox[2]` for longitude,
`boundingBox[1], boundingBox[3]` for latitude). -/
structure BBox where
  lonMin : ℤ
  latMin : ℤ
  lonMax : ℤ
  latMax : ℤ

/-- Embedding of the closure `randomLon()`. -/
def randomLon (bb : BBox) (u : ℕ) : ℤ :=
  randrange bb.lonMin bb.lonMax u

/-- Embedding of the closure `randomLat()`. -/
def randomLat (bb : BBox) (u : ℕ) : ℤ :=
  randrange bb.latMin bb.latMax u

/-- Embedding of `createPoint()`: one random coordinate pair; the two
raw draws are given as `u`. -/
def createPoint (bb : BBox) (u : ℕ × ℕ) : Geometry :=
  Point_ctor (randomLon bb u.1, randomLat bb u.2)

/-- Embedding of `createLine()`: `numberVertices` independently drawn
coordinate pairs; `u i` holds the two raw draws of vertex `i`. -/
def createLine (bb : BBox) (numberVertices : ℕ) (u : ℕ → ℕ × ℕ) : Geometry :=
  LineString_ctor ((List.range numberVertices).map
    (fun i => (randomLon bb (u i).1, randomLat bb (u i).2)))

/-- Embedding of the local `clip(x, min, max)` of `generate_random`. -/
noncomputable def clip (x mn mx : ℝ) : ℝ :=
  if mn > mx then x
  else if x < mn then mn
  else if x > mx then mx
  else x

/-- Fixed average radius of the polygon synthesis (`aveRadius = 60`). -/
noncomputable def aveRadius : ℝ := 60

/-- Fixed polygon center abscissa (`ctrX = 0.1`). -/
noncomputable def ctrX : ℝ := 0.1

/-- Fixed polygon center ordinate (`ctrY = 0.2`). -/
noncomputable def ctrY : ℝ := 0.2

/-- Embedding of Python's `int(x)` on a float: truncation toward
zero. -/
noncomputable def pyInt (x : ℝ) : ℤ :=
  if 0 ≤ x then ⌊x⌋ else ⌈x⌉

/-- Normalization of the raw angle steps: each step is divided by
`k = sum / (2π)` so that the normalized steps sum to `2π`. -/
noncomputable def normalizeSteps (raw : List ℝ) : List ℝ :=
  raw.map (fun s => s / (raw.sum / (2 * Real.pi)))

/-- Vertex loop of `createPoly()`: for each step, the raw Gaussian
radius draw is clipped to `[0, 2 * aveRadius]`, the vertex
`(int(ctrX + r*cos(angle)), int(ctrY + r*sin(angle)))` is emitted, and
the angle advances by the (already normalized) step. -/
noncomputable def genPoints : List ℝ → List ℝ → ℝ → List (ℤ × ℤ)
  | step :: steps, r :: radii, angle =>
      let ri := clip r 0 (2 * aveRadius)
      (pyInt (ctrX + ri * Real.cos angle), pyInt (ctrY + ri * Real.sin angle)) ::
        genPoints steps radii (angle + step)
  | _, _, _ => []

/-- Embedding of `createPoly()`: the vertex loop run on the normalized
angle steps, with the first vertex appended again to close the ring,
wrapped as a single-ring polygon.  `rawSteps` are the
`random.uniform(lower, upper)` draws, `radii` the raw `random.gauss`
draws, `angle0` the `random.uniform(0, 2π)` draw.  Python indexes
`points[0]`, raising `IndexError` when `numberVertices = 0`; `headI`
returns the default pair there, so claims assume `0 < numberVertices`. -/
noncomputable def createPoly (rawSteps radii : List ℝ) (angle0 : ℝ) : Geometry :=
  let points := genPoints (normalizeSteps rawSteps) radii angle0
  Polygon_ctor [points ++ [points.headI]]

/-- Result of `generate_random`: a single geometry, a geometry
collection (modelled from the spec: the `GeometryCollection`
constructor, absent from `src/`, wraps an ordered list of geometries),
or Python's implicit `None` when every branch falls through. -/
inductive GenResult where
  | geometry (g : Geometry)
  | collection (gs : List Geometry)
  | nothing

/-- Geometries carried by a `GenResult`. -/
def resultGeoms : GenResult → List Geometry
  | .geometry g => [g]
  | .collection gs => gs
  | .nothing => []

/-- Per-feature builder dispatch of `generate_random`: the branch taken
for feature index `i`, with `none` when no branch matches
`featureType`.  `pd i` are the raw draws of `createPoint`, `ld i` those
of `createLine`, and `qd i` the triple (raw angle steps, raw radii,
initial angle) of `createPoly`. -/
noncomputable def buildGeometry (featureType : String) (numberVertices : ℕ)
    (bb : BBox) (pd : ℕ → ℕ × ℕ) (ld : ℕ → ℕ → ℕ × ℕ)
    (qd : ℕ → List ℝ × List ℝ × ℝ) (i : ℕ) : Option Geometry :=
  if featureType = "Point" then some (createPoint bb (pd i))
  else if featureType = "LineString" then
    some (createLine bb numberVertices (ld i))
  else if featureType = "Polygon" then
    some (createPoly (qd i).1 (qd i).2.1 (qd i).2.2)
  else none

/-- Embedding of `generate_random(featureType, numberFeatures,
numberVertices, boundingBox)`: when `numberFeatures > 1`, the loop
appends one geometry per index for a recognized type (and nothing for
an unrecognized one) and wraps the group in a collection; otherwise the
trailing if-chain returns the single geometry, or `None` when no branch
matches. -/
noncomputable def generate_random (featureType : String)
    (numberFeatures numberVertices : ℕ) (bb : BBox) (pd : ℕ → ℕ × ℕ)
    (ld : ℕ → ℕ → ℕ × ℕ) (qd : ℕ → List ℝ × List ℝ × ℝ) : GenResult :=
  if numberFeatures > 1 then
    .collection ((List.range numberFeatures).filterMap
      (buildGeometry featureType numberVertices bb pd ld qd))
  else
    match buildGeometry featureType numberVertices bb pd ld qd 0 with
    | some g => .geometry g
    | none => .nothing

/-- Polygon-shaped record as an input of `coords`:
`{'type': 'Polygon', 'coordinates': [ring]}`, a mapping with no
`geometry` key, single-ring coordinates, and the `type` key among the
remaining keys (never read by the extractor). -/
def polygonInput (ring : List PyVal) : GeoInput :=
  .record none (some (.seq false [.seq false ring])) ["type"]

/-- Angle at which vertex `i` of the polygon loop is emitted: the
initial angle advanced by the first `i` (normalized) angle steps. -/
noncomputable def angleAt (angle0 : ℝ) (steps : List ℝ) (i : ℕ) : ℝ :=
  angle0 + (steps.take i).sum

/-! Lemmas about the mapper. -/

theorem buildRes_ne_unsupported (t : String) (o : Option PyVal) :
    buildRes t o ≠ .error .unsupportedGeometryType := by
  cases o <;> simp [buildRes]

theorem map_coords_eq_mapD (f : ℚ → ℚ) (obj : Geometry) (d : ℕ)
    (hd : geomDepth obj.type = some d) :
    map_coords f obj = buildRes obj.type (mapD f d obj.coordinates) := by
  unfold geomDepth at hd
  split at hd <;> simp_all [map_coords] <;> subst hd <;> simp [mapD]

theorem mapOpt_eq_some_map (g : PyVal → Option PyVal) (h : PyVal → PyVal) :
    ∀ l : List PyVal, (∀ e ∈ l, g e = some (h e)) →
      mapOpt g l = some (l.map h) := by
  intro l hl
  induction l with
  | nil => rfl
  | cons e es ih =>
      have he := hl e (by simp)
      have hrest := ih (fun x hx => hl x (by simp [hx]))
      simp [mapOpt, he, hrest]

theorem mapLeavesList_eq_map (f : ℚ → ℚ) :
    ∀ l : List PyVal, mapLeavesList f l = l.map (mapLeaves f) := by
  intro l
  induction l with
  | nil => rfl
  | cons e es ih => simp [mapLeavesList, ih]

theorem mapD_depthB (f : ℚ → ℚ) :
    ∀ (d : ℕ) (c : PyVal), depthB d c = true →
      mapD f d c = some (canonAt d (mapLeaves f c)) := by
  intro d
  induction d with
  | zero =>
      intro c hc
      cases c with
      | num q => simp [depthB] at hc
      | seq t es =>
          simp only [depthB, List.all_eq_true] at hc
          have : mapOpt (mapNum f) es = some (es.map (mapLeaves f)) := by
            apply mapOpt_eq_some_map
            intro e he
            have hn := hc e he
            cases e with
            | num q => simp [mapNum, mapLeaves]
            | seq _ _ => simp [PyVal.isNumV] at hn
          simp [mapD, mapTuple, this, mapLeaves, canonAt, mapLeavesList_eq_map]
  | succ d ih =>
      intro c hc
      cases c with
      | num q => simp [depthB] at hc
      | seq t es =>
          simp only [depthB, List.all_eq_true] at hc
          have : mapOpt (mapD f d) es =
              some (es.map (fun e => canonAt d (mapLeaves f e))) := by
            apply mapOpt_eq_some_map
            intro e he
            exact ih e (hc e he)
          simp [mapD, mapLevel, this, mapLeaves, canonAt,
            mapLeavesList_eq_map, List.map_map, Function.comp]

theorem mapD_canonical :
    ∀ (d : ℕ) (c : PyVal), canonDepth d c = true →
      mapD (fun q => q) d c = some c := by
  intro d
  induction d with
  | zero =>
      intro c hc
      cases c with
      | num q => simp [canonDepth] at hc
      | seq t es =>
          cases t with
          | false => simp [canonDepth] at hc
          | true =>
              simp only [canonDepth, List.all_eq_true] at hc
              have : mapOpt (mapNum fun q => q) es = some (es.map id) := by
                apply mapOpt_eq_some_map
                intro e he
                have hn := hc e he
                cases e with
                | num q => simp [mapNum]
                | seq _ _ => simp [PyVal.isNumV] at hn
              simp [mapD, mapTuple, this]
  | succ d ih =>
      intro c hc
      cases c with
      | num q => simp [canonDepth] at hc
      | seq t es =>
          cases t with
          | true => simp [canonDepth] at hc
          | false =>
              simp only [canonDepth, List.all_eq_true] at hc
              have : mapOpt (mapD (fun q => q) d) es = some (es.map id) := by
                apply mapOpt_eq_some_map
                intro e he
                simpa using ih e (hc e he)
              simp [mapD, mapLevel, this]

mutual

theorem shapeOf_mapLeaves (f : ℚ → ℚ) :
    ∀ v : PyVal, shapeOf (mapLeaves f v) = shapeOf v
  | .num q => rfl
  | .seq t es => by
      rw [mapLeaves, shapeOf, shapeOf, shapeOfList_mapLeavesList f es]

theorem shapeOfList_mapLeavesList (f : ℚ → ℚ) :
    ∀ l : List PyVal, shapeOfList (mapLeavesList f l) = shapeOfList l
  | [] => rfl
  | e :: es => by
      rw [mapLeavesList, shapeOfList, shapeOfList, shapeOf_mapLeaves f e,
        shapeOfList_mapLeavesList f es]

end

mutual

theorem leavesOf_mapLeaves (f : ℚ → ℚ) :
    ∀ v : PyVal, leavesOf (mapLeaves f v) = (leavesOf v).map f
  | .num q => rfl
  | .seq t es => by
      rw [mapLeaves, leavesOf, leavesOf, leavesOfList_mapLeavesList f es]

theorem leavesOfList_mapLeavesList (f : ℚ → ℚ) :
    ∀ l : List PyVal, leavesOfList (mapLeavesList f l) = (leavesOfList l).map f
  | [] => rfl
  | e :: es => by
      rw [mapLeavesList, leavesOfList, leavesOfList, List.map_append,
        leavesOf_mapLeaves f e, leavesOfList_mapLeavesList f es]

end

theorem shapeOfList_map_canonAt (d : ℕ) :
    ∀ l : List PyVal, (∀ e ∈ l, shapeOf (canonAt d e) = shapeOf e) →
      shapeOfList (l.map (canonAt d)) = shapeOfList l := by
  intro l hl
  induction l with
  | nil => rfl
  | cons e es ih =>
      rw [List.map_cons, shapeOfList, shapeOfList, hl e (by simp),
        ih (fun x hx => hl x (by simp [hx]))]

theorem shapeOf_canonAt : ∀ (d : ℕ) (v : PyVal), shapeOf (canonAt d v) = shapeOf v := by
  intro d
  induction d with
  | zero => intro v; cases v <;> simp [canonAt, shapeOf]
  | succ d ih =>
      intro v
      cases v with
      | num q => simp [canonAt]
      | seq t es =>
          rw [canonAt, shapeOf, shapeOf,
            shapeOfList_map_canonAt d es (fun e _ => ih e)]

theorem leavesOfList_map_canonAt (d : ℕ) :
    ∀ l : List PyVal, (∀ e ∈ l, leavesOf (canonAt d e) = leavesOf e) →
      leavesOfList (l.map (canonAt d)) = leavesOfList l := by
  intro l hl
  induction l with
  | nil => rfl
  | cons e es ih =>
      rw [List.map_cons, leavesOfList, leavesOfList, hl e (by simp),
        ih (fun x hx => hl x (by simp [hx]))]

theorem leavesOf_canonAt : ∀ (d : ℕ) (v : PyVal), leavesOf (canonAt d v) = leavesOf v := by
  intro d
  induction d with
  | zero => intro v; cases v <;> simp [canonAt, leavesOf]
  | succ d ih =>
      intro v
      cases v with
      | num q => simp [canonAt]
      | seq t es =>
          rw [canonAt, leavesOf, leavesOf,
            leavesOfList_map_canonAt d es (fun e _ => ih e)]


/-! Claim theorems for the mapper. -/

/-- C1 counterexample: for the geometry-shaped record
`{'type': 'Point', 'coordinates': [1, 2]}` (a Python list of numbers,
nested to the depth the type dictates), `map_coords(identity, G)`
returns `{'type': 'Point', 'coordinates': (1, 2)}` — the leaf sequence
is rebuilt as a tuple — and Python's structural equality distinguishes
`(1, 2)` from `[1, 2]`, so the result is not structurally equal to
`G`. -/
theorem C1_counterexample :
    map_coords (fun q => q) ⟨"Point", .seq false [.num 1, .num 2]⟩ ≠
      Except.ok ⟨"Point", .seq false [.num 1, .num 2]⟩ := by
  have h : map_coords (fun q => q) ⟨"Point", .seq false [.num 1, .num 2]⟩ =
      Except.ok ⟨"Point", .seq true [.num 1, .num 2]⟩ := rfl
  rw [h]
  intro hc
  simp at hc

/-- C1 (amended): for every geometry-shaped record `G` with a supported
type whose coordinates are nested to the depth the type dictates *and
are in the representation `map_coords` itself produces* (the coordinate
tuples are tuples, every enclosing level a list), mapping the identity
over `G` returns a record structurally equal to `G`. -/
theorem C1_identity_on_canonical (obj : Geometry) (d : ℕ)
    (hd : geomDepth obj.type = some d)
    (hc : canonDepth d obj.coordinates = true) :
    map_coords (fun q => q) obj = Except.ok obj := by
  rw [map_coords_eq_mapD (fun q => q) obj d hd, mapD_canonical d obj.coordinates hc,
    buildRes]

/-- C1 witness: the amended identity law evaluated on a concrete
canonical `Point` record. -/
theorem C1_witness :
    map_coords (fun q => q) ⟨"Point", .seq true [.num 1, .num 2]⟩ =
      Except.ok ⟨"Point", .seq true [.num 1, .num 2]⟩ :=
  C1_identity_on_canonical ⟨"Point", .seq true [.num 1, .num 2]⟩ 0 rfl (by rfl)

/-- C2: for every supported type and every transform, `map_coords`
returns a brand-new record with the same type tag whose coordinates are
exactly the canonical rebuild of the input coordinates with the
transform applied to every numeric leaf; consequently the shape
skeleton (nesting depth and per-level element counts) of the output
equals the input's, and the leaf sequence is the transformed leaf
sequence.  The input record itself is a value and is never mutated. -/
theorem C2_map_coords_shape (f : ℚ → ℚ) (obj : Geometry) (d : ℕ)
    (hd : geomDepth obj.type = some d)
    (hw : depthB d obj.coordinates = true) :
    map_coords f obj =
      Except.ok ⟨obj.type, canonAt d (mapLeaves f obj.coordinates)⟩
    ∧ shapeOf (canonAt d (mapLeaves f obj.coordinates)) = shapeOf obj.coordinates
    ∧ leavesOf (canonAt d (mapLeaves f obj.coordinates)) =
        (leavesOf obj.coordinates).map f := by
  refine ⟨?_, ?_, ?_⟩
  · rw [map_coords_eq_mapD f obj d hd, mapD_depthB f d obj.coordinates hw, buildRes]
  · rw [shapeOf_canonAt, shapeOf_mapLeaves]
  · rw [leavesOf_canonAt, leavesOf_mapLeaves]

/-- C2 witness: the shape-preservation law evaluated on a concrete
`LineString` record with the doubling transform. -/
theorem C2_witness :
    map_coords (fun q => q + q)
        ⟨"LineString", .seq false [.seq true [.num 1, .num 2], .seq true [.num 3, .num 4]]⟩ =
      Except.ok ⟨"LineString",
        canonAt 1 (mapLeaves (fun q => q + q)
          (.seq false [.seq true [.num 1, .num 2], .seq true [.num 3, .num 4]]))⟩
    ∧ shapeOf (canonAt 1 (mapLeaves (fun q => q + q)
        (.seq false [.seq true [.num 1, .num 2], .seq true [.num 3, .num 4]]))) =
        shapeOf (.seq false [.seq true [.num 1, .num 2], .seq true [.num 3, .num 4]])
    ∧ leavesOf (canonAt 1 (mapLeaves (fun q => q + q)
        (.seq false [.seq true [.num 1, .num 2], .seq true [.num 3, .num 4]]))) =
        (leavesOf (.seq false [.seq true [.num 1, .num 2], .seq true [.num 3, .num 4]])).map
          (fun q => q + q) :=
  C2_map_coords_shape (fun q => q + q)
    ⟨"LineString", .seq false [.seq true [.num 1, .num 2], .seq true [.num 3, .num 4]]⟩
    1 rfl (by rfl)

/-- C3: `map_coords` fails with `UnsupportedGeometryType` exactly when
the record's type tag is not one of the six supported geometry types;
in particular a `GeometryCollection` record always fails this way,
whatever its coordinates.  (`Except` returns no partial result by
construction, as the Python `raise` does not.) -/
theorem C3_unsupported_type_iff :
    (∀ (f : ℚ → ℚ) (obj : Geometry),
      map_coords f obj = .error .unsupportedGeometryType ↔
        obj.type ∉ supportedTypes)
    ∧ (∀ (f : ℚ → ℚ) (c : PyVal),
      map_coords f ⟨"GeometryCollection", c⟩ = .error .unsupportedGeometryType) := by
  constructor
  · intro f obj
    unfold map_coords
    split_ifs with h1 h2 h3 h4
    · exact iff_of_false (buildRes_ne_unsupported _ _)
        (by simp [supportedTypes, h1])
    · exact iff_of_false (buildRes_ne_unsupported _ _)
        (by rcases h2 with h | h <;> simp [supportedTypes, h])
    · exact iff_of_false (buildRes_ne_unsupported _ _)
        (by rcases h3 with h | h <;> simp [supportedTypes, h])
    · exact iff_of_false (buildRes_ne_unsupported _ _)
        (by simp [supportedTypes, h4])
    · refine iff_of_true rfl ?_
      simp only [supportedTypes, List.mem_cons, List.not_mem_nil]
      push_neg at h2 h3 ⊢
      exact ⟨h1, h2.1, h2.2, h3.1, h3.2, h4, fun h => h⟩
  · intro f c
    rfl

/-! Lemmas about the extractor. -/

theorem coordsElems_spec_list :
    ∀ (l : List PyVal) (cs : List PyVal),
      (∀ e ∈ l, (∃ t es, e = PyVal.seq t es) ∧
        coordsRaw e = some (specLeafTuples e)) →
      coordsElems cs l = specLeafTuplesList l := by
  intro l
  induction l with
  | nil => intro cs _; simp [coordsElems, specLeafTuplesList]
  | cons e rest ih =>
      intro cs h
      obtain ⟨⟨t, es, he⟩, hspec⟩ := h e (by simp)
      subst he
      have h1 : coordsElems es es = specLeafTuples (PyVal.seq t es) := by
        simpa [coordsRaw] using hspec
      rw [coordsElems, h1, specLeafTuplesList,
        ih cs (fun x hx => h x (by simp [hx]))]

theorem coordsRaw_eq_spec : ∀ {v : PyVal}, WFNest v →
    coordsRaw v = some (specLeafTuples v) := by
  intro v h
  induction h with
  | tuple t es hne hnum =>
      match es, hne with
      | .num q :: rest, _ =>
          have hall : (PyVal.num q :: rest).all PyVal.isNumV = true := by
            simp only [List.all_eq_true]
            exact hnum
          simp [coordsRaw, coordsElems, specLeafTuples, hall]
      | .seq t2 es2 :: rest, _ =>
          have := hnum (PyVal.seq t2 es2) (by simp)
          simp [PyVal.isNumV] at this
  | node t es hmem ih =>
      have hseq : ∀ e ∈ es, ∃ t2 es2, e = PyVal.seq t2 es2 := by
        intro e he
        cases hmem e he <;> exact ⟨_, _, rfl⟩
      have hcond : (!es.isEmpty && es.all PyVal.isNumV) = false := by
        cases es with
        | nil => rfl
        | cons e rest =>
            obtain ⟨t2, es2, he⟩ := hseq e (by simp)
            subst he
            simp [PyVal.isNumV]
      rw [coordsRaw, specLeafTuples, hcond, if_neg (by simp),
        coordsElems_spec_list es es
          (fun e he => ⟨hseq e he, ih e he⟩)]

theorem coordsElems_tuples :
    ∀ (l : List PyVal) (cs : List PyVal),
      (∀ v ∈ l, ∃ t es, v = PyVal.seq t es ∧ es ≠ [] ∧
        ∀ e ∈ es, PyVal.isNumV e = true) →
      coordsElems cs l = l.map PyVal.toTuple := by
  intro l
  induction l with
  | nil => intro cs _; simp [coordsElems]
  | cons v rest ih =>
      intro cs h
      obtain ⟨t, es, hv, hne, hnum⟩ := h v (by simp)
      subst hv
      have h1 : coordsElems es es = [PyVal.seq true es] := by
        match es, hne with
        | .num q :: rest2, _ => rw [coordsElems]
        | .seq t2 es2 :: rest2, _ =>
            have := hnum (PyVal.seq t2 es2) (by simp)
            simp [PyVal.isNumV] at this
      rw [coordsElems, h1, ih cs (fun x hx => h x (by simp [hx]))]
      rfl

/-! Claim theorems for the extractor. -/

/-- C4: `coords` resolves its input in the fixed priority order — a raw
sequence is traversed directly; else a present `geometry` key wins even
when a `coordinates` key is also present; else the `coordinates` key;
else the mapping itself is iterated (its keys: nothing for an empty
mapping, a host-language failure otherwise).  On well-formed nested
structures the traversal yields the leaf coordinate tuples in
left-to-right depth-first order (`specLeafTuples`), an empty sequence
yields nothing, and the two concrete dispatch examples of the spec
hold. -/
theorem C4_extract_priority_and_order :
    (∀ v : PyVal, coords (.raw v) = coordsRaw v)
    ∧ (∀ (g c : PyVal) (ks : List String),
        coords (.record (some ⟨some g⟩) (some c) ks) = coordsRaw g)
    ∧ (∀ (c : PyVal) (ks : List String),
        coords (.record none (some c) ks) = coordsRaw c)
    ∧ (∀ v : PyVal, WFNest v → coordsRaw v = some (specLeafTuples v))
    ∧ (∀ t : Bool, coordsRaw (.seq t []) = some [])
    ∧ (∀ ks : List String,
        coords (.record none none ks) = if ks.isEmpty then some [] else none)
    ∧ coords (.record (some ⟨some (.seq false [.num 1, .num 2])⟩) none []) =
        some [.seq true [.num 1, .num 2]]
    ∧ coords (.record none
        (some (.seq false [.seq false [.num 0, .num 0],
          .seq false [.num 1, .num 1]])) ["type"]) =
        some [.seq true [.num 0, .num 0], .seq true [.num 1, .num 1]] := by
  refine ⟨fun v => rfl, fun g c ks => rfl, fun c ks => rfl,
    fun v h => coordsRaw_eq_spec h, ?_, fun ks => rfl, ?_, ?_⟩
  · intro t
    simp [coordsRaw, coordsElems]
  · simp [coords, coordsRaw, coordsElems]
  · simp [coords, coordsRaw, coordsElems]

/-- C4 witness: the depth-first traversal conjunct evaluated on a
concrete well-formed `MultiPoint`-like structure. -/
theorem C4_witness :
    coordsRaw (.seq false [.seq true [.num 5, .num 6], .seq true [.num 7, .num 8]]) =
      some (specLeafTuples
        (.seq false [.seq true [.num 5, .num 6], .seq true [.num 7, .num 8]])) := by
  have hwf : WFNest (.seq false [.seq true [.num 5, .num 6], .seq true [.num 7, .num 8]]) := by
    refine WFNest.node _ _ ?_
    intro e he
    simp only [List.mem_cons, List.not_mem_nil, or_false] at he
    rcases he with h | h <;> subst h <;>
      exact WFNest.tuple _ _ (by simp) (by intro x hx; fin_cases hx <;> rfl)
  exact C4_extract_priority_and_order.2.2.2.1 _ hwf

/-- C5: for every Polygon record whose single ring is the vertex list
`V` closed by duplicating its first vertex as the last, `coords` yields
exactly the closed ring's coordinate tuples in their original order,
including the duplicated closing vertex; in particular this holds for
the integer-pair rings the polygon generator produces (`pairVal`
vertices, already tuples). -/
theorem C5_polygon_ring_extraction :
    (∀ V : List PyVal, V ≠ [] →
      (∀ v ∈ V, ∃ t es, v = PyVal.seq t es ∧ es ≠ [] ∧
        ∀ e ∈ es, PyVal.isNumV e = true) →
      coords (polygonInput (V ++ [V.headI])) =
        some ((V ++ [V.headI]).map PyVal.toTuple))
    ∧ (∀ pts : List (ℤ × ℤ),
      coords (polygonInput ((pts ++ [pts.headI]).map pairVal)) =
        some ((pts ++ [pts.headI]).map pairVal)) := by
  have key : ∀ ring : List PyVal,
      (∀ v ∈ ring, ∃ t es, v = PyVal.seq t es ∧ es ≠ [] ∧
        ∀ e ∈ es, PyVal.isNumV e = true) →
      coords (polygonInput ring) = some (ring.map PyVal.toTuple) := by
    intro ring h
    show coordsRaw (.seq false [.seq false ring]) = _
    rw [coordsRaw]
    simp only [coordsElems, List.append_nil]
    rw [coordsElems_tuples ring ring h]
  constructor
  · intro V hne h
    refine key _ ?_
    intro v hv
    rcases List.mem_append.mp hv with h1 | h1
    · exact h v h1
    · simp only [List.mem_singleton] at h1
      subst h1
      match V, hne with
      | v :: vs, _ => exact h v (by simp)
  · intro pts
    have h := key ((pts ++ [pts.headI]).map pairVal) ?_
    · rw [h, List.map_map]
      have : PyVal.toTuple ∘ pairVal = pairVal := by
        funext p
        rfl
      rw [this]
    · intro v hv
      simp only [List.mem_map] at hv
      obtain ⟨p, _, hp⟩ := hv
      exact ⟨true, _, hp.symm, by simp [pairVal], by
        intro e he
        simp only [pairVal, List.mem_cons, List.not_mem_nil, or_false] at he
        rcases he with h1 | h1 <;> subst h1 <;> rfl⟩

/-- C5 witness: extraction of a concrete closed triangle ring. -/
theorem C5_witness :
    coords (polygonInput
        ([PyVal.seq true [.num 0, .num 0], PyVal.seq true [.num 3, .num 0],
          PyVal.seq true [.num 0, .num 4]] ++
          [([PyVal.seq true [.num 0, .num 0], PyVal.seq true [.num 3, .num 0],
            PyVal.seq true [.num 0, .num 4]] : List PyVal).headI])) =
      some (([PyVal.seq true [.num 0, .num 0], PyVal.seq true [.num 3, .num 0],
          PyVal.seq true [.num 0, .num 4]] ++
          [([PyVal.seq true [.num 0, .num 0], PyVal.seq true [.num 3, .num 0],
            PyVal.seq true [.num 0, .num 4]] : List PyVal).headI]).map PyVal.toTuple) := by
  refine C5_polygon_ring_extraction.1 _ (by simp) ?_
  intro v hv
  simp only [List.mem_cons, List.not_mem_nil, or_false] at hv
  rcases hv with h | h | h <;> subst h <;>
    exact ⟨true, _, rfl, by simp, by
      intro e he
      simp only [List.mem_cons, List.not_mem_nil, or_false] at he
      rcases he with h1 | h1 <;> subst h1 <;> rfl⟩

/-! Lemmas about the generator. -/

theorem genPoints_length : ∀ (steps radii : List ℝ) (a : ℝ),
    (genPoints steps radii a).length = min steps.length radii.length := by
  intro steps
  induction steps with
  | nil => intro radii a; simp [genPoints]
  | cons s ss ih =>
      intro radii a
      cases radii with
      | nil => simp [genPoints]
      | cons r rs =>
          have := ih rs (a + s)
          simp only [genPoints, List.length_cons, this]
          omega

theorem angleAt_zero (a0 : ℝ) (steps : List ℝ) : angleAt a0 steps 0 = a0 := by
  simp [angleAt]

theorem angleAt_succ_cons (a0 s : ℝ) (ss : List ℝ) (i : ℕ) :
    angleAt (a0 + s) ss i = angleAt a0 (s :: ss) (i + 1) := by
  simp [angleAt, List.take_succ_cons]
  ring

theorem genPoints_getD : ∀ (i : ℕ) (steps radii : List ℝ) (a0 : ℝ),
    i < steps.length → i < radii.length →
    (genPoints steps radii a0).getD i (0, 0) =
      (pyInt (ctrX + clip (radii.getD i 0) 0 (2 * aveRadius) *
          Real.cos (angleAt a0 steps i)),
       pyInt (ctrY + clip (radii.getD i 0) 0 (2 * aveRadius) *
          Real.sin (angleAt a0 steps i))) := by
  intro i
  induction i with
  | zero =>
      intro steps radii a0 h1 h2
      match steps, radii, h1, h2 with
      | s :: ss, r :: rs, _, _ =>
          simp [genPoints, angleAt]
  | succ i ih =>
      intro steps radii a0 h1 h2
      match steps, radii, h1, h2 with
      | s :: ss, r :: rs, h1, h2 =>
          have hrec := ih ss rs (a0 + s)
            (by simpa using Nat.lt_of_succ_lt_succ h1)
            (by simpa using Nat.lt_of_succ_lt_succ h2)
          rw [angleAt_succ_cons] at hrec
          simpa [genPoints] using hrec

/-! Claim theorems for the generator. -/

/-- C6: every polygon built by `createPoly` is a single-ring polygon
(no holes) whose ring is the generated vertex list with the first
vertex appended again: the ring has exactly `numberVertices + 1`
vertices and its first and last vertices are identical. -/
theorem C6_polygon_ring_closure (n : ℕ) (rawSteps radii : List ℝ) (angle0 : ℝ)
    (hn : 0 < n) (hs : rawSteps.length = n) (hr : radii.length = n) :
    createPoly rawSteps radii angle0 =
      Polygon_ctor [genPoints (normalizeSteps rawSteps) radii angle0 ++
        [(genPoints (normalizeSteps rawSteps) radii angle0).headI]]
    ∧ (genPoints (normalizeSteps rawSteps) radii angle0 ++
        [(genPoints (normalizeSteps rawSteps) radii angle0).headI]).length = n + 1
    ∧ (genPoints (normalizeSteps rawSteps) radii angle0 ++
        [(genPoints (normalizeSteps rawSteps) radii angle0).headI]).head? =
        some ((genPoints (normalizeSteps rawSteps) radii angle0).headI)
    ∧ (genPoints (normalizeSteps rawSteps) radii angle0 ++
        [(genPoints (normalizeSteps rawSteps) radii angle0).headI]).getLast? =
        some ((genPoints (normalizeSteps rawSteps) radii angle0).headI) := by
  have hlen : (genPoints (normalizeSteps rawSteps) radii angle0).length = n := by
    rw [genPoints_length]
    simp [normalizeSteps, hs, hr]
  refine ⟨rfl, ?_, ?_, ?_⟩
  · simp [hlen]
  · match hpts : genPoints (normalizeSteps rawSteps) radii angle0 with
    | [] => rw [hpts] at hlen; simp at hlen; omega
    | p :: ps => rfl
  · exact List.getLast?_concat _

/-- C6 witness: the ring-closure law evaluated at `numberVertices = 1`
with concrete draws. -/
theorem C6_witness :
    createPoly [1] [1] 0 =
      Polygon_ctor [genPoints (normalizeSteps [1]) [1] 0 ++
        [(genPoints (normalizeSteps [1]) [1] 0).headI]]
    ∧ (genPoints (normalizeSteps [1]) [1] 0 ++
        [(genPoints (normalizeSteps [1]) [1] 0).headI]).length = 1 + 1
    ∧ (genPoints (normalizeSteps [1]) [1] 0 ++
        [(genPoints (normalizeSteps [1]) [1] 0).headI]).head? =
        some ((genPoints (normalizeSteps [1]) [1] 0).headI)
    ∧ (genPoints (normalizeSteps [1]) [1] 0 ++
        [(genPoints (normalizeSteps [1]) [1] 0).headI]).getLast? =
        some ((genPoints (normalizeSteps [1]) [1] 0).headI) :=
  C6_polygon_ring_closure 1 [1] [1] 0 (by decide) rfl rfl

/-- C7 counterexample: with `numberVertices = 1`, raw angle-step draw
`2π`, raw radius draw `60` and initial angle `0`, the code's first
vertex has first component `int(0.1 + 60·cos 0) = 60`, which differs
from the claimed exact value `0.1 + 60·cos 0 = 60.1`: the claim omits
the `int(...)` truncation the source applies to both components. -/
theorem C7_counterexample :
    (((genPoints (normalizeSteps [2 * Real.pi]) [(60 : ℝ)] 0).headI.1 : ℝ)) ≠
      ctrX + clip 60 0 (2 * aveRadius) * Real.cos 0 := by
  have h1 : genPoints (normalizeSteps [2 * Real.pi]) [(60 : ℝ)] 0 =
      [(pyInt (ctrX + clip 60 0 (2 * aveRadius) * Real.cos 0),
        pyInt (ctrY + clip 60 0 (2 * aveRadius) * Real.sin 0))] := by
    simp [normalizeSteps, genPoints]
  rw [h1]
  simp only [List.headI]
  have hclip : clip 60 0 (2 * aveRadius) = 60 := by
    norm_num [clip, aveRadius]
  rw [hclip, Real.cos_zero]
  have hx : ctrX + (60 : ℝ) * 1 = 60.1 := by norm_num [ctrX]
  rw [hx]
  have hp : pyInt (60.1 : ℝ) = 60 := by
    rw [pyInt, if_pos (by norm_num)]
    rw [Int.floor_eq_iff]
    constructor <;> norm_num
  rw [hp]
  norm_num

/-- C7 (amended): vertex `i` of the polygon loop equals the pair
`(int(ctrX + r·cos θ), int(ctrY + r·sin θ))` — the claimed exact point
truncated componentwise by Python's `int()` — where `r` is the `i`-th
raw Gaussian radius draw clipped to `[0, 2·aveRadius]` and `θ` is the
initial angle advanced by the first `i` normalized angle steps. -/
theorem C7_vertex_formula (rawSteps radii : List ℝ) (angle0 : ℝ) (i : ℕ)
    (h1 : i < rawSteps.length) (h2 : i < radii.length) :
    (genPoints (normalizeSteps rawSteps) radii angle0).getD i (0, 0) =
      (pyInt (ctrX + clip (radii.getD i 0) 0 (2 * aveRadius) *
          Real.cos (angleAt angle0 (normalizeSteps rawSteps) i)),
       pyInt (ctrY + clip (radii.getD i 0) 0 (2 * aveRadius) *
          Real.sin (angleAt angle0 (normalizeSteps rawSteps) i))) :=
  genPoints_getD i (normalizeSteps rawSteps) radii angle0
    (by simpa [normalizeSteps] using h1) h2

/-- C7 witness: the amended vertex formula evaluated at the first
vertex of a one-vertex polygon with concrete draws. -/
theorem C7_witness :
    (genPoints (normalizeSteps [1]) [(60 : ℝ)] 0).getD 0 (0, 0) =
      (pyInt (ctrX + clip (([(60 : ℝ)]).getD 0 0) 0 (2 * aveRadius) *
          Real.cos (angleAt 0 (normalizeSteps [1]) 0)),
       pyInt (ctrY + clip (([(60 : ℝ)]).getD 0 0) 0 (2 * aveRadius) *
          Real.sin (angleAt 0 (normalizeSteps [1]) 0))) :=
  C7_vertex_formula [1] [(60 : ℝ)] 0 0 (by simp) (by simp)

theorem randrange_bounds (lo hi : ℤ) (u : ℕ) (h : lo < hi) :
    lo ≤ randrange lo hi u ∧ randrange lo hi u < hi := by
  unfold randrange
  have h1 : 0 ≤ (u : ℤ) % (hi - lo) := Int.emod_nonneg _ (by omega)
  have h2 : (u : ℤ) % (hi - lo) < hi - lo := Int.emod_lt_of_pos _ (by omega)
  omega

theorem leavesOf_pairVal (p : ℤ × ℤ) :
    leavesOf (pairVal p) = [(p.1 : ℚ), (p.2 : ℚ)] := by
  simp [pairVal, leavesOf, leavesOfList]

theorem mem_leavesOfList_pairVal {q : ℚ} :
    ∀ cs : List (ℤ × ℤ), q ∈ leavesOfList (cs.map pairVal) →
      ∃ p ∈ cs, q = (p.1 : ℚ) ∨ q = (p.2 : ℚ) := by
  intro cs
  induction cs with
  | nil => simp [leavesOfList]
  | cons p ps ih =>
      intro hq
      rw [List.map_cons, leavesOfList, leavesOf_pairVal] at hq
      rcases List.mem_append.mp hq with h | h
      · simp only [List.mem_cons, List.not_mem_nil, or_false] at h
        exact ⟨p, by simp, h⟩
      · obtain ⟨p2, hp2, hp2q⟩ := ih h
        exact ⟨p2, by simp [hp2], hp2q⟩

theorem mem_resultGeoms_generate {g : Geometry} (ft : String)
    (n v : ℕ) (bb : BBox) (pd : ℕ → ℕ × ℕ) (ld : ℕ → ℕ → ℕ × ℕ)
    (qd : ℕ → List ℝ × List ℝ × ℝ)
    (hg : g ∈ resultGeoms (generate_random ft n v bb pd ld qd)) :
    ∃ i, buildGeometry ft v bb pd ld qd i = some g := by
  unfold generate_random at hg
  by_cases h : n > 1
  · rw [if_pos h] at hg
    simp only [resultGeoms, List.mem_filterMap] at hg
    obtain ⟨i, _, hb⟩ := hg
    exact ⟨i, hb⟩
  · rw [if_neg h] at hg
    rcases hb : buildGeometry ft v bb pd ld qd 0 with _ | g2
    · rw [hb] at hg
      simp [resultGeoms] at hg
    · rw [hb] at hg
      simp only [resultGeoms, List.mem_singleton] at hg
      subst hg
      exact ⟨0, hb⟩

/-- C8: for a `generate_random` call with feature type `Point` or
`LineString` and bounding box `[-10, -10, 10, 10]`, every numeric leaf
of every geometry of the result lies within the box, whatever the
outcomes of the randomness source (the raw draws are universally
quantified). -/
theorem C8_bounding_box (featureType : String) (n v : ℕ)
    (pd : ℕ → ℕ × ℕ) (ld : ℕ → ℕ → ℕ × ℕ) (qd : ℕ → List ℝ × List ℝ × ℝ)
    (g : Geometry) (q : ℚ)
    (hft : featureType = "Point" ∨ featureType = "LineString")
    (hg : g ∈ resultGeoms
      (generate_random featureType n v ⟨-10, -10, 10, 10⟩ pd ld qd))
    (hq : q ∈ leavesOf g.coordinates) :
    -10 ≤ q ∧ q ≤ 10 := by
  obtain ⟨i, hb⟩ := mem_resultGeoms_generate featureType n v _ pd ld qd hg
  have hrange : ∀ u : ℕ, -10 ≤ randrange (-10) 10 u ∧ randrange (-10) 10 u < 10 :=
    fun u => randrange_bounds (-10) 10 u (by norm_num)
  have hcast : ∀ z : ℤ, -10 ≤ z → z < 10 → -10 ≤ (z : ℚ) ∧ (z : ℚ) ≤ 10 := by
    intro z hz1 hz2
    constructor
    · exact_mod_cast hz1
    · have hz3 : z ≤ 10 := by omega
      exact_mod_cast hz3
  rcases hft with hft | hft <;> subst hft
  · simp only [buildGeometry, if_pos rfl] at hb
    have hg2 : g = createPoint ⟨-10, -10, 10, 10⟩ (pd i) := by
      injection hb.symm
    subst hg2
    rw [show (createPoint ⟨-10, -10, 10, 10⟩ (pd i)).coordinates =
        pairVal (randomLon ⟨-10, -10, 10, 10⟩ (pd i).1,
          randomLat ⟨-10, -10, 10, 10⟩ (pd i).2) from rfl,
      leavesOf_pairVal] at hq
    simp only [List.mem_cons, List.not_mem_nil, or_false] at hq
    rcases hq with h | h <;> subst h
    · exact hcast _ (hrange _).1 (hrange _).2
    · exact hcast _ (hrange _).1 (hrange _).2
  · simp only [buildGeometry, String.reduceEq, reduceIte,
      Option.some.injEq] at hb
    have hg2 : g = createLine ⟨-10, -10, 10, 10⟩ v (ld i) := hb.symm
    subst hg2
    have hq2 : q ∈ leavesOfList
        (((List.range v).map (fun j => (randomLon ⟨-10, -10, 10, 10⟩ ((ld i) j).1,
          randomLat ⟨-10, -10, 10, 10⟩ ((ld i) j).2))).map pairVal) := by
      simpa [createLine, LineString_ctor, leavesOf] using hq
    obtain ⟨p, hp, hpq⟩ := mem_leavesOfList_pairVal _ hq2
    simp only [List.mem_map] at hp
    obtain ⟨j, _, hj⟩ := hp
    subst hj
    rcases hpq with h | h <;> subst h
    · exact hcast _ (hrange _).1 (hrange _).2
    · exact hcast _ (hrange _).1 (hrange _).2

/-- C8 witness: the containment law evaluated on the point generated
from zero raw draws (coordinates `(-10, -10)`). -/
theorem C8_witness : -10 ≤ (-10 : ℚ) ∧ (-10 : ℚ) ≤ 10 :=
  C8_bounding_box "Point" 1 0 (fun _ => (0, 0)) (fun _ _ => (0, 0))
    (fun _ => ([], [], 0))
    (createPoint ⟨-10, -10, 10, 10⟩ (0, 0)) (-10) (Or.inl rfl)
    (by simp [generate_random, buildGeometry, resultGeoms])
    (by
      rw [show (createPoint ⟨-10, -10, 10, 10⟩ (0, 0)).coordinates =
          pairVal (randomLon ⟨-10, -10, 10, 10⟩ 0, randomLat ⟨-10, -10, 10, 10⟩ 0)
        from rfl, leavesOf_pairVal]
      simp [randomLon, randomLat, randrange])

theorem filterMap_eq_map_of_some (f : ℕ → Option Geometry) (g : ℕ → Geometry) :
    ∀ l : List ℕ, (∀ i ∈ l, f i = some (g i)) → l.filterMap f = l.map g := by
  intro l
  induction l with
  | nil => intro _; rfl
  | cons i is ih =>
      intro h
      rw [List.map_cons, List.filterMap_cons, h i (by simp),
        ih (fun j hj => h j (by simp [hj]))]

/-- C9: for a supported feature type, `generate_random` with
`numberFeatures > 1` returns a collection of exactly `numberFeatures`
geometries, the `i`-th being the one the corresponding builder produces
from the `i`-th feature's draws (generation order), each carrying the
requested type tag; with `numberFeatures = 1` the single geometry is
returned directly, unwrapped.  In the `Polygon` case `numberVertices`
must be positive — at `numberVertices = 0` the source raises
(`ZeroDivisionError` in the angle-step bounds, `IndexError` at
`points[0]`) and returns no result — while `createPoint` ignores
`numberVertices` and `createLine` accepts `0` (empty coordinates). -/
theorem C9_collection_cardinality (featureType : String) (n v : ℕ)
    (bb : BBox) (pd : ℕ → ℕ × ℕ) (ld : ℕ → ℕ → ℕ × ℕ)
    (qd : ℕ → List ℝ × List ℝ × ℝ)
    (hft : featureType ∈ ["Point", "LineString", "Polygon"])
    (hv : featureType = "Polygon" → 0 < v) :
    (1 < n → ∃ gs : List Geometry,
      generate_random featureType n v bb pd ld qd = .collection gs
      ∧ gs.length = n
      ∧ ∀ i, i < n →
          gs[i]? = buildGeometry featureType v bb pd ld qd i
          ∧ (gs.getD i default).type = featureType)
    ∧ (n = 1 → ∃ g : Geometry,
      generate_random featureType n v bb pd ld qd = .geometry g
      ∧ buildGeometry featureType v bb pd ld qd 0 = some g
      ∧ g.type = featureType) := by
  have hbld : ∃ bld : ℕ → Geometry,
      (∀ i, buildGeometry featureType v bb pd ld qd i = some (bld i))
      ∧ ∀ i, (bld i).type = featureType := by
    simp only [List.mem_cons, List.not_mem_nil, or_false] at hft
    rcases hft with h | h | h <;> subst h
    · exact ⟨fun i => createPoint bb (pd i),
        fun i => by simp [buildGeometry], fun i => rfl⟩
    · exact ⟨fun i => createLine bb v (ld i),
        fun i => by simp [buildGeometry], fun i => rfl⟩
    · exact ⟨fun i => createPoly (qd i).1 (qd i).2.1 (qd i).2.2,
        fun i => by simp [buildGeometry], fun i => rfl⟩
  obtain ⟨bld, hsome, htype⟩ := hbld
  constructor
  · intro hn
    refine ⟨(List.range n).map bld, ?_, by simp, ?_⟩
    · unfold generate_random
      rw [if_pos hn,
        filterMap_eq_map_of_some _ bld (List.range n) (fun i _ => hsome i)]
    · intro i hi
      constructor
      · simp only [List.getElem?_map, List.getElem?_range hi, Option.map_some']
        exact (hsome i).symm
      · simp only [List.getD_eq_getElem?_getD, List.getElem?_map,
          List.getElem?_range hi, Option.map_some', Option.getD_some]
        exact htype i
  · intro hn
    subst hn
    refine ⟨bld 0, ?_, hsome 0, htype 0⟩
    unfold generate_random
    rw [if_neg (by omega), hsome 0]

/-- C9 witness: five points are returned as a collection of exactly
five `Point` geometries, and a single-feature call returns the bare
geometry. -/
theorem C9_witness :
    (1 < 5 → ∃ gs : List Geometry,
      generate_random "Point" 5 3 ⟨-180, -90, 180, 90⟩ (fun _ => (0, 0))
          (fun _ _ => (0, 0)) (fun _ => ([], [], 0)) = .collection gs
      ∧ gs.length = 5
      ∧ ∀ i, i < 5 →
          gs[i]? = buildGeometry "Point" 3 ⟨-180, -90, 180, 90⟩ (fun _ => (0, 0))
            (fun _ _ => (0, 0)) (fun _ => ([], [], 0)) i
          ∧ (gs.getD i default).type = "Point")
    ∧ ((5 : ℕ) = 1 → ∃ g : Geometry,
      generate_random "Point" 5 3 ⟨-180, -90, 180, 90⟩ (fun _ => (0, 0))
          (fun _ _ => (0, 0)) (fun _ => ([], [], 0)) = .geometry g
      ∧ buildGeometry "Point" 3 ⟨-180, -90, 180, 90⟩ (fun _ => (0, 0))
          (fun _ _ => (0, 0)) (fun _ => ([], [], 0)) 0 = some g
      ∧ g.type = "Point") :=
  C9_collection_cardinality "Point" 5 3 ⟨-180, -90, 180, 90⟩ (fun _ => (0, 0))
    (fun _ _ => (0, 0)) (fun _ => ([], [], 0)) (by simp) (by decide)

/-- C10: the geometries of a `Polygon` call do not depend on the
bounding box: two `generate_random` calls differing only in the
bounding box, with the same feature counts and the same randomness
outcomes, return identical results (the polygon builder reads only the
fixed center, the fixed average radius and the draws). -/
theorem C10_polygon_bbox_independent (n v : ℕ) (bb bb2 : BBox)
    (pd : ℕ → ℕ × ℕ) (ld : ℕ → ℕ → ℕ × ℕ) (qd : ℕ → List ℝ × List ℝ × ℝ) :
    generate_random "Polygon" n v bb pd ld qd =
      generate_random "Polygon" n v bb2 pd ld qd := by
  have h : buildGeometry "Polygon" v bb pd ld qd =
      buildGeometry "Polygon" v bb2 pd ld qd := by
    funext i
    simp [buildGeometry]
  unfold generate_random
  rw [h]
